import Mathlib

/-!
Verification of the taja-khobor crawl / enrich / dedupe / publish pipeline.

This file gives a shallow embedding, in Lean 4, of the core logic of the
repository and proves the testable properties stated in its specification.

Conventions used throughout the embedding:

* Instants of time are natural numbers counting nanoseconds since the Unix
  epoch; the Go method Unix() on a time value is division by nsPerSec
  (Go truncates toward zero and all modelled instants are non-negative).
* Go durations are natural numbers of nanoseconds as well.
* The persistent key/value bucket of the BoltDB-backed store is modelled
  extensionally as a function from keys to optional stored byte strings;
  a byte is a natural number below 256.
* Fallible Go calls are modelled with Option / Except.  The modelled code
  paths never hit a storage-layer error (the bucket always exists and
  deletes always succeed in the pure model), which mirrors the fact that
  such errors come only from the storage collaborator, not from the logic
  verified here.
* Go reads the wall clock more than once inside a single store call
  (once for the cleanup gate and once inside the transaction); the model
  passes a single instant `now` for one call, which identifies those two
  reads.  Nothing proved here depends on the sub-call clock drift.
-/

namespace TajaKhobor

/-! ## Deduplication store (src/unnamed/part_001, package storage)

The store keeps one record per article identifier, valued by an 8-byte
big-endian unsigned integer holding the expiry instant in Unix seconds.
-/

/-- Nanoseconds in one second; Unix() on a modelled instant divides by this. -/
def nsPerSec : Nat := 1000000000

/-- Width in bytes of a stored expiry value (constant expiryValueBytes). -/
def expiryValueBytes : Nat := 8

/-- Big-endian encoding of the low 64 bits of a natural number, as done by
binary.BigEndian.PutUint64 into an 8-byte buffer. -/
def putUint64BE (n : Nat) : List Nat :=
  [n / 2 ^ 56 % 256, n / 2 ^ 48 % 256, n / 2 ^ 40 % 256, n / 2 ^ 32 % 256,
   n / 2 ^ 24 % 256, n / 2 ^ 16 % 256, n / 2 ^ 8 % 256, n % 256]

/-- Big-endian decoding of a byte string, as done by binary.BigEndian.Uint64. -/
def beUint64 (v : List Nat) : Nat :=
  v.foldl (fun acc b => acc * 256 + b) 0

/-- Reinterpretation of a 64-bit unsigned value as a signed 64-bit value,
modelling the Go conversion int64(uint64value). -/
def int64OfUint64 (n : Nat) : Int :=
  if n < 2 ^ 63 then (n : Int) else (n : Int) - 2 ^ 64

/-- Embedding of decodeExpiry: a stored value decodes to an expiry (in Unix
seconds) exactly when it is 8 bytes wide and its big-endian value, read as a
signed 64-bit integer, is strictly positive; otherwise decoding fails and the
record is treated as already expired. -/
def decodeExpiry (v : List Nat) : Option Nat :=
  if v.length = expiryValueBytes then
    let unix := int64OfUint64 (beUint64 v)
    if 0 < unix then some unix.toNat else none
  else none

/-- Extensional model of the BoltDB article bucket: keys to stored bytes. -/
def Bucket : Type := String → Option (List Nat)

/-- Write (or overwrite) one record, modelling bucket.Put. -/
def bucketPut (b : Bucket) (k : String) (v : List Nat) : Bucket :=
  fun k2 => if k2 = k then some v else b k2

/-- Remove one record, modelling bucket.Delete. -/
def bucketDelete (b : Bucket) (k : String) : Bucket :=
  fun k2 => if k2 = k then none else b k2

/-- Embedding of the boltStore state: the bucket, the last-cleanup stamp in
Unix seconds (field lastCleanup, stored truncated to whole seconds), and the
two configured durations in nanoseconds. -/
structure BoltStore where
  bucket : Bucket
  lastCleanup : Nat
  articleTTL : Nat
  cleanupInterval : Nat

/-- Decision, from the cleanup scan loop of maybeCleanupExpired, whether one
record survives the scan at instant `now`: it must decode and its expiry
instant must lie strictly after `now` (expiry.After(now)). -/
def keepEntry (v : List Nat) (now : Nat) : Bool :=
  match decodeExpiry v with
  | some e => decide (now < e * nsPerSec)
  | none => false

/-- The full scan of maybeCleanupExpired: every record that fails keepEntry
is deleted through the cursor; every other record is untouched. -/
def cleanupScan (b : Bucket) (now : Nat) : Bucket :=
  fun k =>
    match b k with
    | some v => if keepEntry v now then some v else none
    | none => none

/-- The cadence gate of maybeCleanupExpired: a scan is attempted exactly when
the time elapsed since the last-cleanup stamp (read back as whole seconds) is
at least the configured cleanup interval.  The Go comparison subtracts time
values, which can be negative, so the model compares over the integers.
Sequentially, the unsynchronized fast-path read and the lock-guarded re-read
of the stamp see the same value, so the double-checked gate collapses to this
single test. -/
def cleanupDue (s : BoltStore) (now : Nat) : Bool :=
  decide ((s.cleanupInterval : Int) ≤ (now : Int) - (s.lastCleanup : Int) * (nsPerSec : Int))

/-- Embedding of maybeCleanupExpired: when due, scan the bucket and store the
current instant, truncated to whole Unix seconds, as the new stamp. -/
def maybeCleanupExpired (s : BoltStore) (now : Nat) : BoltStore :=
  if cleanupDue s now then
    { s with bucket := cleanupScan s.bucket now, lastCleanup := now / nsPerSec }
  else s

/-- Embedding of SeenArticle at instant `now`: run the cleanup gate, then look
the identifier up.  A missing record reports false; a record that fails to
decode or whose expiry is not strictly after `now` is deleted on the spot and
reports false; a live record reports true. -/
def seenArticle (s : BoltStore) (id : String) (now : Nat) : Bool × BoltStore :=
  let s1 := maybeCleanupExpired s now
  match s1.bucket id with
  | none => (false, s1)
  | some v =>
    match decodeExpiry v with
    | some e =>
      if now < e * nsPerSec then (true, s1)
      else (false, { s1 with bucket := bucketDelete s1.bucket id })
    | none => (false, { s1 with bucket := bucketDelete s1.bucket id })

/-- Embedding of MarkArticle at instant `now`: run the cleanup gate, then
write the identifier with expiry now + TTL, truncated to whole Unix seconds
and encoded big-endian on 8 bytes. -/
def markArticle (s : BoltStore) (id : String) (now : Nat) : BoltStore :=
  let s1 := maybeCleanupExpired s now
  { s1 with
    bucket := bucketPut s1.bucket id (putUint64BE ((now + s1.articleTTL) / nsPerSec)) }

/-- One external call against the store, with the instant at which it runs. -/
inductive StoreOp where
  | seenOp (id : String) (now : Nat)
  | markOp (id : String) (now : Nat)

/-- Instant at which a store call runs. -/
def StoreOp.time : StoreOp → Nat
  | .seenOp _ now => now
  | .markOp _ now => now

/-- Whether a store call writes a mark for the given identifier. -/
def StoreOp.marks : StoreOp → String → Bool
  | .seenOp _ _, _ => false
  | .markOp i _, id => i == id

/-- State transition of one store call. -/
def runOp (s : BoltStore) : StoreOp → BoltStore
  | .seenOp id now => (seenArticle s id now).2
  | .markOp id now => markArticle s id now

/-- State after a sequence of store calls. -/
def runOps (s : BoltStore) (ops : List StoreOp) : BoltStore :=
  ops.foldl runOp s

/-- Instants at which a sequence of store calls actually executes a cleanup
scan (the call-count instrumentation of the specification). -/
def scanTimes (s : BoltStore) : List StoreOp → List Nat
  | [] => []
  | op :: rest =>
    if cleanupDue s op.time then op.time :: scanTimes (runOp s op) rest
    else scanTimes (runOp s op) rest

/-- An empty bucket, used for concrete instantiations. -/
def emptyBucket : Bucket := fun _ => none

/-- Invariant carried through later store calls after one mark of `id` whose
stored whole-second expiry is `esec`, for a query at instant `q`: the record
either still holds the bytes the mark wrote, or is gone, but then only
because its expiry instant is at most `q`. -/
def MarkInv (id : String) (esec q : Nat) (b : Bucket) : Prop :=
  b id = some (putUint64BE esec) ∨ (b id = none ∧ esec * nsPerSec ≤ q)

/-! ## Domain model (src/unnamed/part_007, package domain; src/pkg/providers)

Only the fields the verified logic reads are modelled; the publication
timestamp of an Event (set from the wall clock inside NewEvent) is omitted
because no verified property depends on it. -/

/-- Embedding of domain.Article. -/
structure Article where
  providerID : String
  id : String
  title : String
  url : String
  description : String
  imageURL : String
  keywords : List String
  publishedAt : Nat
deriving DecidableEq

/-- Default article value, standing in for the Go zero value. -/
def defaultArticle : Article :=
  { providerID := "", id := "", title := "", url := "", description := ""
    imageURL := "", keywords := [], publishedAt := 0 }

instance : Inhabited Article := ⟨defaultArticle⟩

/-- Embedding of providers.Provider; the request delay is in nanoseconds
(the value returned by the RequestDelay method). -/
structure Provider where
  id : String
  name : String
  requestDelay : Nat
deriving DecidableEq

/-- Embedding of publishers.Event, the publish envelope built by NewEvent
from the provider identifier, the provider display name and one article. -/
structure Event where
  providerID : String
  providerName : String
  article : Article
deriving DecidableEq

/-- Embedding of publishers.NewEvent as invoked by publishArticles. -/
def mkEvent (cfg : Provider) (art : Article) : Event :=
  { providerID := cfg.id, providerName := cfg.name, article := art }

/-- Level of a structured log observation. -/
inductive LogLevel where
  | debug
  | info
  | warn
  | err
deriving DecidableEq

/-- One structured log observation: level, message and field key (the
structured payload itself is not modelled). -/
structure LogEntry where
  level : LogLevel
  msg : String
  key : String
deriving DecidableEq

/-! ## Fan-out publisher (src/pkg/publishers/fanout.go)

A sink is modelled together with the outcome its Publish call would return
for the event under consideration, since the fan-out treats sinks as opaque
capabilities. -/

/-- One configured sink with its publish outcome for the current event. -/
structure Sink where
  id : String
  type : String
  err : Option String
deriving DecidableEq

/-- Annotation wrapped around a failing sink error by Fanout.Publish
(fmt.Errorf with the sink type and identifier). -/
def sinkErrMsg (s : Sink) (e : String) : String :=
  s.type ++ " publisher[" ++ s.id ++ "]: " ++ e

/-- Embedding of Fanout.Publish: every sink is invoked; sinks that return no
error are counted, errors are collected in order.  The Go errors.Join of the
collected list is nil exactly when the list is empty, so the aggregated error
is modelled by the list itself.  The early return for a nil receiver or an
empty sink list coincides with the recursion base. -/
def fanoutPublish : List Sink → Nat × List String
  | [] => (0, [])
  | s :: rest =>
    let r := fanoutPublish rest
    match s.err with
    | some e => (r.1, sinkErrMsg s e :: r.2)
    | none => (r.1 + 1, r.2)

/-! ## Provider processor (src/internal/crawler/crawler.go)

The dedupe collaborator is an oracle from identifiers to lookup outcomes,
and the event publisher is an oracle from events to fan-out outcomes, both
fixed for the duration of one processing pass. -/

/-- Log entry emitted when a dedupe lookup fails during filtering. -/
def dedupeLookupFailedLog : LogEntry :=
  { level := .err, msg := "dedupe lookup failed", key := "dedupe_error" }

/-- Log entry emitted when an already seen article is skipped. -/
def articleSkipLog : LogEntry :=
  { level := .debug, msg := "article skipped (already published)", key := "article_skip" }

/-- Embedding of ProviderProcessor.filterNewArticles with a configured
deduper: one pass over the fetched articles in order; a lookup error keeps
the article and logs at error level; a positive lookup drops the article
with a debug observation; a negative lookup keeps the article.  No error is
ever returned to the caller. -/
def filterNewArticles (lookup : String → Except String Bool) :
    List Article → List Article × List LogEntry
  | [] => ([], [])
  | art :: rest =>
    let r := filterNewArticles lookup rest
    match lookup art.id with
    | .error _ => (art :: r.1, dedupeLookupFailedLog :: r.2)
    | .ok true => (r.1, articleSkipLog :: r.2)
    | .ok false => (art :: r.1, r.2)

/-- Characterization, in the words of the specification, of the articles the
filter keeps: everything except articles the deduper positively reports as
seen (a lookup failure keeps the article). -/
def keptByFilter (lookup : String → Except String Bool) (a : Article) : Bool :=
  match lookup a.id with
  | .ok true => false
  | _ => true

/-- Outcome of one fan-out publish call: the success count and the aggregated
error, modelled as in fanoutPublish. -/
structure PublishOutcome where
  successful : Nat
  err : Option String

/-- Observable result of ProviderProcessor.publishArticles: the returned
published count, the per-article error list that errors.Join aggregates, the
events handed to the fan-out in order, the identifiers passed to the dedupe
mark call in order, and the log observations. -/
structure PublishResult where
  published : Nat
  errs : List String
  events : List Event
  marks : List String
  logs : List LogEntry
deriving DecidableEq

/-- Log entry emitted when a fan-out publish call returns an error. -/
def publishFailedLog : LogEntry :=
  { level := .err, msg := "failed to publish article", key := "publisher_error" }

/-- Log entry emitted when marking a published article fails. -/
def markFailedLog : LogEntry :=
  { level := .err, msg := "failed to cache published article", key := "dedupe_error" }

/-- Embedding of ProviderProcessor.publishArticles with a configured
publisher: for each article in order, build the event and invoke the fan-out;
a returned error is recorded (wrapped with the article identifier) and logged
but does not stop the loop; when the fan-out reports at least one successful
sink the article counts as published and, when a deduper is configured, its
identifier is marked seen, a mark failure being only logged. -/
def publishArticles (publish : Event → PublishOutcome)
    (deduper : Option (String → Option String)) (cfg : Provider) :
    List Article → PublishResult
  | [] => { published := 0, errs := [], events := [], marks := [], logs := [] }
  | art :: rest =>
    let evt := mkEvent cfg art
    let o := publish evt
    let r := publishArticles publish deduper cfg rest
    let errs :=
      match o.err with
      | some e => ("article " ++ art.id ++ ": " ++ e) :: r.errs
      | none => r.errs
    let errLogs :=
      match o.err with
      | some _ => [publishFailedLog]
      | none => []
    if 0 < o.successful then
      match deduper with
      | some mark =>
        let markLogs :=
          match mark art.id with
          | some _ => [markFailedLog]
          | none => []
        { published := r.published + 1, errs := errs, events := evt :: r.events
          marks := art.id :: r.marks, logs := errLogs ++ markLogs ++ r.logs }
      | none =>
        { published := r.published + 1, errs := errs, events := evt :: r.events
          marks := r.marks, logs := errLogs ++ r.logs }
    else
      { published := r.published, errs := errs, events := evt :: r.events
        marks := r.marks, logs := errLogs ++ r.logs }

/-! ## Crawl scheduler (src/internal/crawler/crawler.go, Service)

The run context is modelled by a single flag saying whether it was cancelled
before the pass started (the case the specification speaks about); the
per-provider processing is an oracle returning an optional error.  With a
pre-cancelled context the dispatch loop enqueues nothing and every worker
declines its (nonexistent) units, so no errors are collected; otherwise all
providers are dispatched and each failure contributes one error. -/

/-- Fixed upper bound on concurrently processed providers. -/
def maxProviderWorkers : Nat := 10

/-- Errors Service.Run can return. -/
inductive RunError where
  | notInitialized
  | noProviders
  | aggregated (errs : List String)
deriving DecidableEq

/-- Embedding of Service.runAll: worker count is the minimum of the provider
count and the fixed maximum; with zero workers (no providers) no work is
done; with a pre-cancelled context nothing is enqueued and workers report no
errors for units they never start; otherwise every provider is processed and
failing providers contribute their error. -/
def runAll (cancelled : Bool) (process : Provider → Option String)
    (cfgs : List Provider) : List String :=
  if min cfgs.length maxProviderWorkers = 0 then []
  else if cancelled then []
  else cfgs.filterMap process

/-- Embedding of Service.Run: a nil service or processor is a construction
error, an empty provider list is a distinct configuration error, and
otherwise the collected per-provider errors are joined (a nil error exactly
when no provider failed).  The processor argument is none exactly when the
service was not properly constructed. -/
def serviceRun (processor : Option (Provider → Option String)) (cancelled : Bool)
    (cfgs : List Provider) : Option RunError :=
  match processor with
  | none => some .notInitialized
  | some process =>
    if cfgs.length = 0 then some .noProviders
    else
      let errs := runAll cancelled process cfgs
      if errs.isEmpty then none else some (.aggregated errs)

/-! ## Article enricher (src/internal/crawler/scraper.go)

String trimming models strings.TrimSpace from the Go standard library:
whitespace characters are removed from both ends. -/

/-- Whitespace test used by trimming (models unicode.IsSpace). -/
def isSpaceChar (c : Char) : Bool := c.isWhitespace

/-- Trim whitespace from both ends of a character list. -/
def trimChars (cs : List Char) : List Char :=
  (cs.dropWhile isSpaceChar).rdropWhile isSpaceChar

/-- Model of strings.TrimSpace. -/
def trimS (s : String) : String := ⟨trimChars s.data⟩

/-- Embedding of firstNonEmpty: the first value that is nonempty after
trimming, itself trimmed; the empty string when there is none. -/
def firstNonEmpty : List String → String
  | [] => ""
  | v :: rest => if trimS v ≠ "" then trimS v else firstNonEmpty rest

/-- Extracted metadata of one page (struct pageMeta). -/
structure PageMeta where
  title : String
  description : String
  imageURL : String
deriving DecidableEq

/-- Model of a parsed HTML document as seen through the goquery selector
queries parseMeta performs: for each meta selector, the content attribute of
the first matching node when one exists (none both when no node matches and
when the node lacks the attribute, which extract folds to the empty string),
and the text of the first title element (empty when there is none). -/
structure PageDoc where
  ogTitle : Option String
  titleText : String
  ogDescription : Option String
  metaDescription : Option String
  ogImage : Option String
deriving DecidableEq

/-- The extract closure of parseMeta: the trimmed content attribute of the
first matching node, or the empty string. -/
def extractContent : Option String → String
  | some v => trimS v
  | none => ""

/-- Embedding of parseMeta on a successfully parsed document: title prefers
the Open Graph title over the title element text; description prefers the
Open Graph description over the description meta tag; the image is the Open
Graph image only. -/
def parseMeta (doc : PageDoc) : PageMeta :=
  { title := firstNonEmpty [extractContent doc.ogTitle, trimS doc.titleText]
    description := firstNonEmpty [extractContent doc.ogDescription, extractContent doc.metaDescription]
    imageURL := extractContent doc.ogImage }

/-- Character allowed inside a URL scheme after the leading letter. -/
def isSchemeChar (c : Char) : Bool :=
  c.isAlphanum || c == '+' || c == '-' || c == '.'

/-- Scan for a colon terminating a valid scheme before any other separator. -/
def hasSchemeAux : List Char → Bool
  | [] => false
  | c :: rest => if c = ':' then true else isSchemeChar c && hasSchemeAux rest

/-- Model of the IsAbs test of the Go net/url package: the string carries a
scheme, that is, a leading letter followed by scheme characters up to a
colon. -/
def hasScheme (s : String) : Bool :=
  match s.data with
  | [] => false
  | c :: rest => c.isAlpha && hasSchemeAux rest

/-- Scheme part of an absolute URL, up to the first colon. -/
def schemeOf (s : String) : String :=
  ⟨s.data.takeWhile (fun c => !(c = ':'))⟩

/-- Scheme and host part of an absolute URL, up to the first slash of the
path. -/
def originOf (s : String) : String :=
  match s.splitOn "/" with
  | a :: _ :: c :: _ => a ++ "//" ++ c
  | _ => s

/-- Base URL with its last path segment removed. -/
def dirOf (s : String) : String :=
  String.intercalate "/" (s.splitOn "/").dropLast ++ "/"

/-- Model of ResolveReference from the Go net/url package for the reference
shapes a scraped image attribute takes: a protocol-relative reference keeps
the base scheme, a rooted path keeps the base origin, and any other relative
reference replaces the last segment of the base path.  Query and fragment
normalization and dot-segment removal are not modelled; no verified property
depends on them. -/
def resolveRef (base ref : String) : String :=
  if ref.startsWith "//" then schemeOf base ++ ":" ++ ref
  else if ref.startsWith "/" then originOf base ++ ref
  else dirOf base ++ ref

/-- Embedding of resolveURL: the empty string stays empty, an absolute URL is
returned as given, and a relative URL is resolved against the base.  The Go
code returns the raw string when url.Parse fails on it; the model treats
every string as parseable, which is the case for every URL the properties
below quantify over. -/
def resolveURL (raw base : String) : String :=
  if raw = "" then ""
  else if hasScheme raw then raw
  else resolveRef base raw

/-- Outcome of the page fetch for one article: a transport error, or a
response carrying the HTTP status and the result of parsing the body (the
parse result is an oracle standing for goquery.NewDocumentFromReader; a body
over the 1 MiB cap is truncated before parsing, which the parse oracle
already accounts for). -/
inductive FetchResult where
  | fetchErr (msg : String)
  | response (status : Nat) (parse : Except String PageDoc)

/-- Embedding of Scraper.fetchAndParse: a transport error or a non-200
status is an enrichment failure (the Go error text carries a body snippet,
which the model elides); otherwise the parsed metadata is overlaid on the
article, each field only when nonempty, the image resolved against the URL
of the article itself. -/
def fetchAndParse (result : FetchResult) (art : Article) : Except String Article :=
  match result with
  | .fetchErr e => .error ("http fetch: " ++ e)
  | .response status parse =>
    if status ≠ 200 then .error ("status " ++ toString status)
    else
      match parse with
      | .error e => .error ("parse html: " ++ e)
      | .ok doc =>
        let meta := parseMeta doc
        .ok { art with
          title := if meta.title ≠ "" then meta.title else art.title
          description := if meta.description ≠ "" then meta.description else art.description
          imageURL := if meta.imageURL ≠ "" then resolveURL meta.imageURL art.url else art.imageURL }

/-- Value written by articleWorker into its output slot: the enriched article
on success, the original article on any per-article failure. -/
def enrichSlot (fetch : Nat → FetchResult) (arts : List Article) (i : Nat) : Article :=
  let art := arts.getD i defaultArticle
  match fetchAndParse (fetch i) art with
  | .ok enriched => enriched
  | .error _ => art

/-- The worker pool of Enrich, sequentialized: the dispatched job indices are
consumed in order; a job a worker skips (because it observed cancellation at
its loop head or while waiting on the rate limiter) leaves the output slot
untouched; a processed job overwrites exactly its own slot.  Workers own
disjoint indices, so the order of this sequentialization is irrelevant to
the final slice. -/
def runJobs (fetch : Nat → FetchResult) (skip : Nat → Bool) (arts : List Article) :
    List Nat → List Article → List Article
  | [], out => out
  | j :: rest, out =>
    if skip j then runJobs fetch skip arts rest out
    else runJobs fetch skip arts rest (out.set j (enrichSlot fetch arts j))

/-- Number of jobs the dispatch loop of Enrich enqueues: all of them when the
context is never cancelled, and only those enqueued before cancellation was
observed otherwise. -/
def dispatchCount (cancelAt : Option Nat) (n : Nat) : Nat :=
  match cancelAt with
  | none => n
  | some k => min k n

/-- Embedding of Scraper.Enrich: the output is preseeded with a copy of the
input, jobs 0, 1, ... are dispatched until cancellation is observed (cancelAt
gives the point at which the dispatch loop sees a cancelled context; none
means the context is never cancelled), and each dispatched job either skips
(worker-side cancellation check, only possible when the context was
cancelled at all) or overlays its slot. -/
def enrich (fetch : Nat → FetchResult) (cancelAt : Option Nat) (skip : Nat → Bool)
    (arts : List Article) : List Article :=
  runJobs fetch (fun j => cancelAt.isSome && skip j) arts
    (List.range (dispatchCount cancelAt arts.length)) arts


/-! ## Concrete sample values used to instantiate the proved properties -/

deriving instance DecidableEq for Except

/-- Sample article with identifier a1. -/
def sampleA1 : Article := { defaultArticle with id := "a1" }

/-- Sample article with identifier a2. -/
def sampleA2 : Article := { defaultArticle with id := "a2" }

/-- Sample provider. -/
def sampleProvider : Provider := { id := "p", name := "P", requestDelay := 0 }

/-- Sample dedupe lookup oracle: a1 was seen, everything else was not. -/
def sampleLookup : String → Except String Bool :=
  fun id => if id = "a1" then .ok true else .ok false

/-- Sample dedupe lookup oracle whose storage layer is down. -/
def sampleLookupDown : String → Except String Bool :=
  fun _ => .error "down"

/-- Sample fan-out outcome: one sink accepted, no error. -/
def samplePublishOk : Event → PublishOutcome :=
  fun _ => { successful := 1, err := none }

/-- Sample fan-out outcome: one sink accepted, another failed. -/
def samplePublishPartial : Event → PublishOutcome :=
  fun _ => { successful := 1, err := some "sink down" }

/-- Sample mark oracle that always succeeds. -/
def sampleMark : String → Option String := fun _ => none

/-- Sample page without any extractable metadata. -/
def samplePage : PageDoc :=
  { ogTitle := none, titleText := "", ogDescription := none
    metaDescription := none, ogImage := none }

/-! ## Theorems: deduplication store -/

theorem beUint64_putUint64BE (n : Nat) (h : n < 2 ^ 64) :
    beUint64 (putUint64BE n) = n := by
  simp only [putUint64BE, beUint64, List.foldl]
  omega

theorem decodeExpiry_putUint64BE (n : Nat) (h : n < 2 ^ 63) :
    decodeExpiry (putUint64BE n) = if 0 < n then some n else none := by
  have hlen : (putUint64BE n).length = expiryValueBytes := by
    simp [putUint64BE, expiryValueBytes]
  have hbe : beUint64 (putUint64BE n) = n := beUint64_putUint64BE n (by omega)
  have h2 : n < 9223372036854775808 := by omega
  simp [decodeExpiry, hlen, hbe, int64OfUint64, h2, Int.natCast_pos]

theorem keepEntry_putUint64BE (n : Nat) (h : n < 2 ^ 63) (now : Nat) :
    keepEntry (putUint64BE n) now = decide (now < n * nsPerSec) := by
  rw [keepEntry, decodeExpiry_putUint64BE n h]
  by_cases hn : 0 < n
  · simp [hn]
  · have : n = 0 := by omega
    simp [this]

theorem cleanupScan_markInv {id : String} {esec q : Nat} {b : Bucket}
    (hsec : esec < 2 ^ 63) (hinv : MarkInv id esec q b) {u : Nat} (hu : u ≤ q) :
    MarkInv id esec q (cleanupScan b u) := by
  rcases hinv with h | ⟨h, hle⟩
  · by_cases hk : u < esec * nsPerSec
    · left
      simp [cleanupScan, h, keepEntry_putUint64BE esec hsec, hk]
    · right
      constructor
      · simp [cleanupScan, h, keepEntry_putUint64BE esec hsec, hk]
      · omega
  · right
    exact ⟨by simp [cleanupScan, h], hle⟩

theorem bucketPut_markInv {id : String} {esec q : Nat} {b : Bucket}
    (hinv : MarkInv id esec q b) {k : String} (hk : k ≠ id) (v : List Nat) :
    MarkInv id esec q (bucketPut b k v) := by
  rcases hinv with h | ⟨h, hle⟩
  · left; simpa [bucketPut, Ne.symm hk] using h
  · right; exact ⟨by simpa [bucketPut, Ne.symm hk] using h, hle⟩

theorem bucketDelete_markInv_other {id : String} {esec q : Nat} {b : Bucket}
    (hinv : MarkInv id esec q b) {k : String} (hk : k ≠ id) :
    MarkInv id esec q (bucketDelete b k) := by
  rcases hinv with h | ⟨h, hle⟩
  · left; simpa [bucketDelete, Ne.symm hk] using h
  · right; exact ⟨by simpa [bucketDelete, Ne.symm hk] using h, hle⟩

theorem maybeCleanupExpired_markInv {id : String} {esec q : Nat} {s : BoltStore}
    (hsec : esec < 2 ^ 63) (hinv : MarkInv id esec q s.bucket) {u : Nat} (hu : u ≤ q) :
    MarkInv id esec q (maybeCleanupExpired s u).bucket := by
  rw [maybeCleanupExpired]
  split
  · exact cleanupScan_markInv hsec hinv hu
  · exact hinv

theorem seenArticle_markInv {id : String} {esec q : Nat} {s : BoltStore}
    (hsec : esec < 2 ^ 63) (hinv : MarkInv id esec q s.bucket)
    {id2 : String} {u : Nat} (hu : u ≤ q) :
    MarkInv id esec q (seenArticle s id2 u).2.bucket := by
  have h1 := maybeCleanupExpired_markInv hsec hinv hu (s := s) (u := u)
  rw [seenArticle]
  by_cases hid : id2 = id
  · subst hid
    rcases h1 with h | ⟨h, hle⟩
    · simp only [h]
      by_cases hpos : 0 < esec
      · simp only [decodeExpiry_putUint64BE esec hsec, if_pos hpos]
        by_cases hq : u < esec * nsPerSec
        · simpa [hq] using Or.inl h
        · simp only [hq, ite_false]
          right
          exact ⟨by simp [bucketDelete], by omega⟩
      · have hz : esec = 0 := by omega
        simp only [decodeExpiry_putUint64BE esec hsec, if_neg hpos]
        right
        exact ⟨by simp [bucketDelete], by simp [hz]⟩
    · simp only [h]
      exact Or.inr ⟨h, hle⟩
  · have hid2 : id2 ≠ id := hid
    cases hb : (maybeCleanupExpired s u).bucket id2 with
    | none => simpa [hb] using h1
    | some v =>
      rcases hd : decodeExpiry v with _ | e
      · simp only [hb, hd]
        exact bucketDelete_markInv_other h1 hid2
      · simp only [hb, hd]
        by_cases hq : u < e * nsPerSec
        · simpa [hq] using h1
        · simp only [hq, ite_false]
          exact bucketDelete_markInv_other h1 hid2

theorem maybeCleanupExpired_articleTTL (s : BoltStore) (u : Nat) :
    (maybeCleanupExpired s u).articleTTL = s.articleTTL := by
  rw [maybeCleanupExpired]
  split <;> rfl

theorem markArticle_markInv {id : String} {esec q : Nat} {s : BoltStore}
    (hsec : esec < 2 ^ 63) (hinv : MarkInv id esec q s.bucket)
    {id2 : String} {u : Nat} (hu : u ≤ q) (hne : id2 ≠ id) :
    MarkInv id esec q (markArticle s id2 u).bucket := by
  rw [markArticle]
  exact bucketPut_markInv (maybeCleanupExpired_markInv hsec hinv hu) hne _

theorem runOp_markInv {id : String} {esec q : Nat} {s : BoltStore}
    (hsec : esec < 2 ^ 63) (hinv : MarkInv id esec q s.bucket) (op : StoreOp)
    (ht : op.time ≤ q) (hm : op.marks id = false) :
    MarkInv id esec q (runOp s op).bucket := by
  cases op with
  | seenOp i n => exact seenArticle_markInv hsec hinv ht
  | markOp i n =>
    have hne : i ≠ id := by simpa [StoreOp.marks] using hm
    exact markArticle_markInv hsec hinv ht hne

theorem runOps_markInv {id : String} {esec q : Nat} {s : BoltStore} {ops : List StoreOp}
    (hsec : esec < 2 ^ 63) (hinv : MarkInv id esec q s.bucket)
    (hops : ∀ op ∈ ops, op.time ≤ q ∧ op.marks id = false) :
    MarkInv id esec q (runOps s ops).bucket := by
  induction ops generalizing s with
  | nil => exact hinv
  | cons op rest ih =>
    have h1 := hops op (by simp)
    exact ih (runOp_markInv hsec hinv op h1.1 h1.2) (fun o ho => hops o (by simp [ho]))

theorem seenArticle_of_markInv {id : String} {esec q : Nat} {s : BoltStore}
    (hsec : esec < 2 ^ 63) (hinv : MarkInv id esec q s.bucket) :
    (seenArticle s id q).1 = decide (q < esec * nsPerSec) := by
  have h1 := maybeCleanupExpired_markInv hsec hinv (le_refl q)
  rw [seenArticle]
  rcases h1 with h | ⟨h, hle⟩
  · simp only [h]
    by_cases hpos : 0 < esec
    · simp only [decodeExpiry_putUint64BE esec hsec, if_pos hpos]
      by_cases hq : q < esec * nsPerSec
      · simp [hq]
      · simp [hq]
    · have hz : esec = 0 := by omega
      subst hz
      have hd : decodeExpiry (putUint64BE 0) = none := by decide
      simp [hd]
  · simp only [h]
    have : ¬ q < esec * nsPerSec := by omega
    simp [this]

/-- Claim C1, amended.  For every store whose TTL and cleanup interval are
positive, an identifier marked via MarkArticle at instant T is, at any later
query instant q reached through any interleaving of SeenArticle, MarkArticle
(of other identifiers) and lazy cleanup passes, reported seen exactly when q
lies before the stored whole-second expiry E = (the Unix-second floor of
T + TTL) expressed as an instant; E is at most T + TTL, so the original
claim holds in the direction "not seen at or after T + TTL", while queries
in the residual window from E to T + TTL (nonempty exactly when T + TTL
falls on a fractional second) already report not seen, which refutes the
original claim in the other direction (see the counterexample).  The bound
hypothesis keeps the Unix-second expiry inside the signed 64-bit range the
on-disk encoding can faithfully hold. -/
theorem claim_C1_amended (s : BoltStore) (id : String) (T q : Nat) (ops : List StoreOp)
    (hbound : T + s.articleTTL < 2 ^ 63 * nsPerSec)
    (hops : ∀ op ∈ ops, op.time ≤ q ∧ op.marks id = false) :
    (seenArticle (runOps (markArticle s id T) ops) id q).1
        = decide (q < (T + s.articleTTL) / nsPerSec * nsPerSec) ∧
      (T + s.articleTTL) / nsPerSec * nsPerSec ≤ T + s.articleTTL := by
  have hns : 0 < nsPerSec := by norm_num [nsPerSec]
  have hsec : (T + s.articleTTL) / nsPerSec < 2 ^ 63 :=
    (Nat.div_lt_iff_lt_mul hns).mpr hbound
  have hmark : MarkInv id ((T + s.articleTTL) / nsPerSec) q (markArticle s id T).bucket := by
    left
    simp [markArticle, bucketPut, maybeCleanupExpired_articleTTL]
  refine ⟨?_, Nat.div_mul_le_self _ _⟩
  exact seenArticle_of_markInv hsec (runOps_markInv hsec hmark hops)

theorem maybeCleanupExpired_cleanupInterval (s : BoltStore) (u : Nat) :
    (maybeCleanupExpired s u).cleanupInterval = s.cleanupInterval := by
  rw [maybeCleanupExpired]
  split <;> rfl

theorem maybeCleanupExpired_lastCleanup (s : BoltStore) (u : Nat) :
    (maybeCleanupExpired s u).lastCleanup
      = if cleanupDue s u then u / nsPerSec else s.lastCleanup := by
  rw [maybeCleanupExpired]
  split <;> simp_all

theorem seenArticle_snd_fields (s : BoltStore) (id : String) (u : Nat) :
    (seenArticle s id u).2.lastCleanup = (maybeCleanupExpired s u).lastCleanup ∧
      (seenArticle s id u).2.cleanupInterval = (maybeCleanupExpired s u).cleanupInterval := by
  rw [seenArticle]
  split
  · exact ⟨rfl, rfl⟩
  · split
    · split
      · exact ⟨rfl, rfl⟩
      · exact ⟨rfl, rfl⟩
    · exact ⟨rfl, rfl⟩

theorem runOp_lastCleanup (s : BoltStore) (op : StoreOp) :
    (runOp s op).lastCleanup
      = if cleanupDue s op.time then op.time / nsPerSec else s.lastCleanup := by
  cases op with
  | seenOp i n =>
    rw [runOp, (seenArticle_snd_fields s i n).1, maybeCleanupExpired_lastCleanup]
    rfl
  | markOp i n =>
    have h : (markArticle s i n).lastCleanup = (maybeCleanupExpired s n).lastCleanup := rfl
    rw [runOp, h, maybeCleanupExpired_lastCleanup]
    rfl

theorem runOp_cleanupInterval (s : BoltStore) (op : StoreOp) :
    (runOp s op).cleanupInterval = s.cleanupInterval := by
  cases op with
  | seenOp i n =>
    rw [runOp, (seenArticle_snd_fields s i n).2, maybeCleanupExpired_cleanupInterval]
  | markOp i n =>
    have h : (markArticle s i n).cleanupInterval = (maybeCleanupExpired s n).cleanupInterval := rfl
    rw [runOp, h, maybeCleanupExpired_cleanupInterval]

theorem scanTimes_spec (ops : List StoreOp) (s : BoltStore) :
    (∀ t ∈ (scanTimes s ops).head?,
        (s.cleanupInterval : Int) ≤ (t : Int) - (s.lastCleanup : Int) * (nsPerSec : Int)) ∧
      (scanTimes s ops).Chain'
        (fun t1 t2 => t1 / nsPerSec * nsPerSec + s.cleanupInterval ≤ t2) := by
  induction ops generalizing s with
  | nil => simp [scanTimes]
  | cons op rest ih =>
    rw [scanTimes]
    by_cases hdue : cleanupDue s op.time
    · simp only [hdue, if_true]
      have hint : (runOp s op).cleanupInterval = s.cleanupInterval := runOp_cleanupInterval s op
      have hlast : (runOp s op).lastCleanup = op.time / nsPerSec := by
        rw [runOp_lastCleanup, if_pos hdue]
      have ihr := ih (runOp s op)
      constructor
      · intro t ht
        simp only [List.head?_cons, Option.mem_def, Option.some.injEq] at ht
        subst ht
        exact of_decide_eq_true hdue
      · rw [List.chain'_cons']
        constructor
        · intro t2 ht2
          have h2 := ihr.1 t2 ht2
          rw [hint, hlast] at h2
          generalize op.time / nsPerSec = d at h2 ⊢
          omega
        · have h3 := ihr.2
          rw [hint] at h3
          exact h3
    · simp only [hdue, if_false]
      have hint : (runOp s op).cleanupInterval = s.cleanupInterval := runOp_cleanupInterval s op
      have hlast : (runOp s op).lastCleanup = s.lastCleanup := by
        rw [runOp_lastCleanup, if_neg hdue]
      have ihr := ih (runOp s op)
      constructor
      · intro t ht
        have h2 := ihr.1 t ht
        rw [hint, hlast] at h2
        exact h2
      · have h3 := ihr.2
        rw [hint] at h3
        exact h3


/-- Claim C1, counterexample to the original statement.  With TTL and
cleanup interval both one second (both positive), an identifier marked at
T = 0.5 s is already reported not seen at q = 1.2 s, although q lies inside
the claimed window from T to T + TTL = 1.5 s: the store rounded the expiry
down to the whole second 1 s.  No cleanup pass runs in this trace (the
last-cleanup stamp starts at one second). -/
theorem claim_C1_counterexample :
    0 < nsPerSec ∧ (500000000 : Nat) ≤ 1200000000 ∧
      (1200000000 : Nat) < 500000000 + nsPerSec ∧
      (seenArticle
          (markArticle
            { bucket := emptyBucket, lastCleanup := 1, articleTTL := nsPerSec,
              cleanupInterval := nsPerSec } "a" 500000000)
          "a" 1200000000).1 = false := by
  decide

/-- Witness for claim C1 (amended) at a concrete store: mark at T = 0 with a
two-second TTL, query at one second, no intermediate calls. -/
theorem claim_C1_amended_witness :
    (seenArticle
        (runOps
          (markArticle
            { bucket := emptyBucket, lastCleanup := 1, articleTTL := 2 * nsPerSec,
              cleanupInterval := nsPerSec } "a" 0) [])
        "a" nsPerSec).1
      = decide (nsPerSec < (0 + 2 * nsPerSec) / nsPerSec * nsPerSec) ∧
      (0 + 2 * nsPerSec) / nsPerSec * nsPerSec ≤ 0 + 2 * nsPerSec := by
  exact claim_C1_amended _ "a" 0 nsPerSec [] (by decide) (by simp)

/-- Claim C5.  A SeenArticle lookup that finds a stored record behaves as
follows, whether or not the call also triggers a cleanup pass: if the record
fails to decode to a positive 8-byte big-endian value or its expiry is not
strictly after the query instant, the lookup reports not seen and the record
is gone from the store afterwards (deleted by the lookup itself or by the
cleanup scan it triggered), so an expired entry is treated as absent and is
never resurrected; a record with a live expiry reports seen.  The embedding
is total, mirroring that SeenArticle can fail only on a storage-layer
error. -/
theorem claim_C5 (s : BoltStore) (id : String) (now : Nat) (v : List Nat)
    (hv : s.bucket id = some v) :
    ((decodeExpiry v = none ∨ ∃ e, decodeExpiry v = some e ∧ e * nsPerSec ≤ now) →
        (seenArticle s id now).1 = false ∧ (seenArticle s id now).2.bucket id = none) ∧
      (∀ e, decodeExpiry v = some e → now < e * nsPerSec →
        (seenArticle s id now).1 = true) := by
  rw [seenArticle]
  by_cases hdue : cleanupDue s now
  · have hb : (maybeCleanupExpired s now).bucket = cleanupScan s.bucket now := by
      rw [maybeCleanupExpired, if_pos hdue]
    constructor
    · rintro (hd | ⟨e, hd, hle⟩)
      · have hk : keepEntry v now = false := by rw [keepEntry, hd]
        have hnone : (maybeCleanupExpired s now).bucket id = none := by
          rw [hb]
          simp [cleanupScan, hv, hk]
        simp [hnone]
      · have hk : keepEntry v now = false := by
          rw [keepEntry, hd]
          simp
          omega
        have hnone : (maybeCleanupExpired s now).bucket id = none := by
          rw [hb]
          simp [cleanupScan, hv, hk]
        simp [hnone]
    · intro e hd hlt
      have hk : keepEntry v now = true := by
        rw [keepEntry, hd]
        simpa using hlt
      have hsome : (maybeCleanupExpired s now).bucket id = some v := by
        rw [hb]
        simp [cleanupScan, hv, hk]
      simp [hsome, hd, hlt]
  · have hs : maybeCleanupExpired s now = s := by
      rw [maybeCleanupExpired, if_neg hdue]
    constructor
    · rintro (hd | ⟨e, hd, hle⟩)
      · simp [hs, hv, hd, bucketDelete]
      · have hnlt : ¬ now < e * nsPerSec := by omega
        simp [hs, hv, hd, hnlt, bucketDelete]
    · intro e hd hlt
      simp [hs, hv, hd, hlt]

/-- Witness for claim C5: a record with expiry three seconds, queried at one
second, reports seen. -/
theorem claim_C5_witness :
    (seenArticle
        { bucket := bucketPut emptyBucket "a" (putUint64BE 3), lastCleanup := 2,
          articleTTL := nsPerSec, cleanupInterval := nsPerSec } "a" nsPerSec).1 = true :=
  (claim_C5 _ "a" nsPerSec (putUint64BE 3) (by decide)).2 3 (by decide) (by decide)

/-- Claim C4, amended.  First, a cleanup scan at a given instant removes
exactly the records whose stored value fails to decode or whose expiry has
passed, keeps every record with a live expiry, and creates nothing.  Second,
across any sequence of SeenArticle and MarkArticle calls, the instants at
which a scan actually executes satisfy: each scan lies at least one cleanup
interval after the whole-second stamp recorded by the previous scan.
Because that stamp is truncated to whole seconds, consecutive scans are
guaranteed to be more than interval minus one second apart but can fall
short of a full interval, which refutes the literal once-per-interval
reading of the original claim (see the counterexample); with whole-second
call instants the original claim holds. -/
theorem claim_C4_amended :
    (∀ (b : Bucket) (now : Nat) (k : String) (v : List Nat), b k = some v →
        ((decodeExpiry v = none → cleanupScan b now k = none) ∧
          (∀ e, decodeExpiry v = some e → e * nsPerSec ≤ now → cleanupScan b now k = none) ∧
          (∀ e, decodeExpiry v = some e → now < e * nsPerSec → cleanupScan b now k = some v))) ∧
      (∀ (b : Bucket) (now : Nat) (k : String), b k = none → cleanupScan b now k = none) ∧
      (∀ (s : BoltStore) (ops : List StoreOp),
        (scanTimes s ops).Chain'
          (fun t1 t2 => t1 / nsPerSec * nsPerSec + s.cleanupInterval ≤ t2)) := by
  refine ⟨?_, ?_, ?_⟩
  · intro b now k v hv
    refine ⟨?_, ?_, ?_⟩
    · intro hd
      have hk : keepEntry v now = false := by rw [keepEntry, hd]
      simp [cleanupScan, hv, hk]
    · intro e hd hle
      have hk : keepEntry v now = false := by
        rw [keepEntry, hd]
        simp
        omega
      simp [cleanupScan, hv, hk]
    · intro e hd hlt
      have hk : keepEntry v now = true := by
        rw [keepEntry, hd]
        simpa using hlt
      simp [cleanupScan, hv, hk]
  · intro b now k hv
    simp [cleanupScan, hv]
  · intro s ops
    exact (scanTimes_spec ops s).2

/-- Witness for claim C4 (amended): a record with expiry three seconds is
removed by a scan at four seconds. -/
theorem claim_C4_amended_witness :
    cleanupScan (bucketPut emptyBucket "a" (putUint64BE 3)) (4 * nsPerSec) "a" = none :=
  ((claim_C4_amended.1 (bucketPut emptyBucket "a" (putUint64BE 3)) (4 * nsPerSec) "a"
      (putUint64BE 3) (by decide)).2.1) 3 (by decide) (by decide)

/-- Claim C4, counterexample to the original statement.  With a two-second
cleanup interval, two SeenArticle calls at 2.9 s and 4.0 s both execute a
scan, only 1.1 s apart: the first scan stored its instant truncated to the
whole second 2 s, so the second call already measured a full interval. -/
theorem claim_C4_counterexample :
    0 < 2 * nsPerSec ∧
      scanTimes
        { bucket := emptyBucket, lastCleanup := 0, articleTTL := nsPerSec,
          cleanupInterval := 2 * nsPerSec }
        [StoreOp.seenOp "x" 2900000000, StoreOp.seenOp "x" 4000000000]
        = [2900000000, 4000000000] ∧
      (4000000000 : Nat) - 2900000000 < 2 * nsPerSec := by
  decide

/-! ## Theorems: fan-out publisher -/

theorem fanout_fst_eq (sinks : List Sink) :
    (fanoutPublish sinks).1
      = sinks.length - (sinks.filter (fun s => s.err.isSome)).length := by
  induction sinks with
  | nil => rfl
  | cons s rest ih =>
    have hk : (rest.filter (fun s => s.err.isSome)).length ≤ rest.length :=
      List.length_filter_le _ _
    cases he : s.err with
    | none => simp [fanoutPublish, he, ih]; omega
    | some e => simp [fanoutPublish, he, ih]

theorem fanout_snd_eq (sinks : List Sink) :
    (fanoutPublish sinks).2 = sinks.filterMap (fun s => s.err.map (sinkErrMsg s)) := by
  induction sinks with
  | nil => rfl
  | cons s rest ih =>
    cases he : s.err with
    | none => simp [fanoutPublish, he, ih]
    | some e => simp [fanoutPublish, he, ih]

/-- Claim C3.  For every sink list, the fan-out publish returns a success
count equal to the number of sinks minus the number of failing sinks, and an
aggregated error holding, in sink order, exactly one entry per failing sink,
each annotated with that sink type and identifier (so the error component
count equals the failure count, and the aggregate is empty, that is, a nil
error, exactly when no sink failed); with no sinks the result is (0, nil). -/
theorem claim_C3 (sinks : List Sink) :
    (fanoutPublish sinks).1
        = sinks.length - (sinks.filter (fun s => s.err.isSome)).length ∧
      (fanoutPublish sinks).2 = sinks.filterMap (fun s => s.err.map (sinkErrMsg s)) ∧
      (fanoutPublish sinks).2.length = (sinks.filter (fun s => s.err.isSome)).length ∧
      fanoutPublish [] = (0, []) := by
  refine ⟨fanout_fst_eq sinks, fanout_snd_eq sinks, ?_, rfl⟩
  rw [fanout_snd_eq]
  induction sinks with
  | nil => rfl
  | cons s rest ih =>
    cases he : s.err with
    | none => simpa [he] using ih
    | some e => simpa [he] using ih

/-! ## Theorems: provider processor -/

theorem filterNewArticles_eq_filter (lookup : String → Except String Bool)
    (arts : List Article) :
    (filterNewArticles lookup arts).1 = arts.filter (keptByFilter lookup) := by
  induction arts with
  | nil => rfl
  | cons a rest ih =>
    rcases hl : lookup a.id with e | b
    · simp [filterNewArticles, hl, keptByFilter, ih]
    · cases b
      · simp [filterNewArticles, hl, keptByFilter, ih]
      · simp [filterNewArticles, hl, keptByFilter, ih]

theorem filterNewArticles_error_mem (lookup : String → Except String Bool)
    (arts : List Article) :
    ∀ a ∈ arts, (∃ e, lookup a.id = .error e) →
      a ∈ (filterNewArticles lookup arts).1 ∧
        dedupeLookupFailedLog ∈ (filterNewArticles lookup arts).2 := by
  induction arts with
  | nil => intro a ha; cases ha
  | cons a rest ih =>
    intro x hx hex
    obtain ⟨e, he⟩ := hex
    rcases List.mem_cons.mp hx with h | h
    · subst h
      simp [filterNewArticles, he]
    · have hr := ih x h ⟨e, he⟩
      rcases hl : lookup a.id with e2 | b
      · simp only [filterNewArticles, hl]
        exact ⟨List.mem_cons_of_mem _ hr.1, List.mem_cons_of_mem _ hr.2⟩
      · cases b
        · simp only [filterNewArticles, hl]
          exact ⟨List.mem_cons_of_mem _ hr.1, hr.2⟩
        · simp only [filterNewArticles, hl]
          exact ⟨hr.1, List.mem_cons_of_mem _ hr.2⟩

/-- Claim C8.  The filtering pass keeps exactly the fetched articles whose
dedupe lookup did not positively report seen, in fetch order (the output is
the order-preserving filter of the input and hence a sublist of it); an
article whose lookup failed is kept and an error-level observation is
recorded, the failure never being propagated (structurally: the filter
returns no error); an article reported seen is dropped with only a
debug-level observation. -/
theorem claim_C8 (lookup : String → Except String Bool) (arts : List Article) :
    (filterNewArticles lookup arts).1 = arts.filter (keptByFilter lookup) ∧
      List.Sublist (filterNewArticles lookup arts).1 arts ∧
      (∀ a ∈ arts, (∃ e, lookup a.id = .error e) →
        a ∈ (filterNewArticles lookup arts).1 ∧
          dedupeLookupFailedLog ∈ (filterNewArticles lookup arts).2) := by
  have heq := filterNewArticles_eq_filter lookup arts
  exact ⟨heq, heq ▸ List.filter_sublist arts, filterNewArticles_error_mem lookup arts⟩

/-- Witness for claim C8: with the dedupe storage down, the article is kept
and the failure is logged. -/
theorem claim_C8_witness :
    sampleA1 ∈ (filterNewArticles sampleLookupDown [sampleA1]).1 ∧
      dedupeLookupFailedLog ∈ (filterNewArticles sampleLookupDown [sampleA1]).2 :=
  (claim_C8 sampleLookupDown [sampleA1]).2.2 sampleA1 (by simp) ⟨"down", rfl⟩

/-- Claim C2.  Given fetched articles a1 (reported seen) and a2 (reported
not seen), the filter keeps exactly a2; publishing the filtered batch hands
the fan-out exactly the one event built from a2 (a1 is never published); and
a2 is marked seen exactly when the fan-out reported at least one successful
sink for it, the mark call following the publish call in program order. -/
theorem claim_C2 (lookup : String → Except String Bool) (publish : Event → PublishOutcome)
    (mark : String → Option String) (cfg : Provider) (a1 a2 : Article)
    (h1 : lookup a1.id = .ok true) (h2 : lookup a2.id = .ok false) :
    (filterNewArticles lookup [a1, a2]).1 = [a2] ∧
      (publishArticles publish (some mark) cfg (filterNewArticles lookup [a1, a2]).1).events
        = [mkEvent cfg a2] ∧
      (publishArticles publish (some mark) cfg (filterNewArticles lookup [a1, a2]).1).marks
        = (if 0 < (publish (mkEvent cfg a2)).successful then [a2.id] else []) := by
  have hf : (filterNewArticles lookup [a1, a2]).1 = [a2] := by
    simp [filterNewArticles, h1, h2]
  refine ⟨hf, ?_, ?_⟩ <;> rw [hf] <;>
    by_cases hs : 0 < (publish (mkEvent cfg a2)).successful <;>
      simp [publishArticles, hs]

/-- Witness for claim C2 at concrete articles, a fully successful fan-out and
an always-succeeding mark oracle. -/
theorem claim_C2_witness :
    (filterNewArticles sampleLookup [sampleA1, sampleA2]).1 = [sampleA2] ∧
      (publishArticles samplePublishOk (some sampleMark) sampleProvider
          (filterNewArticles sampleLookup [sampleA1, sampleA2]).1).events
        = [mkEvent sampleProvider sampleA2] ∧
      (publishArticles samplePublishOk (some sampleMark) sampleProvider
          (filterNewArticles sampleLookup [sampleA1, sampleA2]).1).marks
        = (if 0 < (samplePublishOk (mkEvent sampleProvider sampleA2)).successful
            then [sampleA2.id] else []) :=
  claim_C2 sampleLookup samplePublishOk sampleMark sampleProvider sampleA1 sampleA2 rfl rfl

theorem publishArticles_cons_mono (publish : Event → PublishOutcome)
    (dedup : Option (String → Option String)) (cfg : Provider) (a : Article)
    (rest : List Article) (x y : String) :
    (x ∈ (publishArticles publish dedup cfg rest).marks →
      x ∈ (publishArticles publish dedup cfg (a :: rest)).marks) ∧
    (y ∈ (publishArticles publish dedup cfg rest).errs →
      y ∈ (publishArticles publish dedup cfg (a :: rest)).errs) := by
  by_cases hs : 0 < (publish (mkEvent cfg a)).successful <;>
    cases dedup <;>
      rcases he : (publish (mkEvent cfg a)).err with _ | e <;>
        constructor <;>
          intro hmem <;>
            simp [publishArticles, hs, he, hmem]

/-- Claim C10.  For an article in the batch for which the fan-out reports
both at least one successful sink and a non-nil error (a partial sink
failure), the publish step both marks that article seen in the dedupe store
and keeps that article identifier in the error list that errors.Join turns
into the returned non-nil error: being marked seen does not remove the
article from the error report, and the mark is attempted despite the
error. -/
theorem claim_C10 (publish : Event → PublishOutcome) (mark : String → Option String)
    (cfg : Provider) (arts : List Article) (art : Article) (e : String)
    (hmem : art ∈ arts)
    (hsucc : 0 < (publish (mkEvent cfg art)).successful)
    (herr : (publish (mkEvent cfg art)).err = some e) :
    art.id ∈ (publishArticles publish (some mark) cfg arts).marks ∧
      ("article " ++ art.id ++ ": " ++ e)
        ∈ (publishArticles publish (some mark) cfg arts).errs ∧
      (publishArticles publish (some mark) cfg arts).errs ≠ [] := by
  have hmain : art.id ∈ (publishArticles publish (some mark) cfg arts).marks ∧
      ("article " ++ art.id ++ ": " ++ e)
        ∈ (publishArticles publish (some mark) cfg arts).errs := by
    induction arts with
    | nil => cases hmem
    | cons a rest ih =>
      rcases List.mem_cons.mp hmem with h | h
      · subst h
        constructor
        · simp [publishArticles, hsucc]
        · simp [publishArticles, herr, hsucc]
      · have hr := ih h
        exact ⟨(publishArticles_cons_mono publish (some mark) cfg a rest art.id
            ("article " ++ art.id ++ ": " ++ e)).1 hr.1,
          (publishArticles_cons_mono publish (some mark) cfg a rest art.id
            ("article " ++ art.id ++ ": " ++ e)).2 hr.2⟩
  exact ⟨hmain.1, hmain.2, by intro hnil; rw [hnil] at hmain; cases hmain.2⟩

/-- Witness for claim C10: one article, one successful sink and one failed
sink. -/
theorem claim_C10_witness :
    sampleA2.id
        ∈ (publishArticles samplePublishPartial (some sampleMark) sampleProvider
            [sampleA2]).marks ∧
      ("article " ++ sampleA2.id ++ ": " ++ "sink down")
        ∈ (publishArticles samplePublishPartial (some sampleMark) sampleProvider
            [sampleA2]).errs ∧
      (publishArticles samplePublishPartial (some sampleMark) sampleProvider
          [sampleA2]).errs ≠ [] :=
  claim_C10 samplePublishPartial sampleMark sampleProvider [sampleA2] sampleA2 "sink down"
    (by simp) (by decide) rfl

/-! ## Theorems: crawl scheduler -/

/-- Claim C7.  Run on a service that was not properly constructed returns
the construction configuration error; with an empty provider list it returns
the distinct no-providers configuration error (the two errors differ); and
with a nonempty provider list under a context cancelled before the pass
starts, it returns nil, because nothing is dispatched and workers decline to
start units without reporting failures for units they skip. -/
theorem claim_C7 :
    (∀ (cancelled : Bool) (cfgs : List Provider),
        serviceRun none cancelled cfgs = some RunError.notInitialized) ∧
      (∀ (process : Provider → Option String) (cancelled : Bool),
        serviceRun (some process) cancelled [] = some RunError.noProviders) ∧
      (RunError.notInitialized ≠ RunError.noProviders) ∧
      (∀ (process : Provider → Option String) (cfgs : List Provider), cfgs ≠ [] →
        serviceRun (some process) true cfgs = none) := by
  refine ⟨fun _ _ => rfl, fun _ _ => rfl, by decide, ?_⟩
  intro process cfgs hne
  simp [serviceRun, runAll, hne]

/-- Witness for claim C7: one provider whose processing would fail, under a
pre-cancelled context, yields no error. -/
theorem claim_C7_witness :
    serviceRun (some (fun _ => none)) true [sampleProvider] = none := by
  exact claim_C7.2.2.2 (fun _ => none) [sampleProvider] (by simp)

/-! ## Theorems: article enricher -/

theorem runJobs_length (fetch : Nat → FetchResult) (skip : Nat → Bool)
    (arts : List Article) (jobs : List Nat) (out : List Article) :
    (runJobs fetch skip arts jobs out).length = out.length := by
  induction jobs generalizing out with
  | nil => rfl
  | cons j rest ih =>
    rw [runJobs]
    split
    · exact ih out
    · rw [ih]
      exact List.length_set out j _

theorem runJobs_getElem? (fetch : Nat → FetchResult) (skip : Nat → Bool)
    (arts : List Article) (jobs : List Nat) (hnd : jobs.Nodup)
    (out : List Article) (i : Nat) :
    (runJobs fetch skip arts jobs out)[i]?
      = if i ∈ jobs ∧ skip i = false
          then out[i]?.map (fun _ => enrichSlot fetch arts i)
          else out[i]? := by
  induction jobs generalizing out with
  | nil => simp [runJobs]
  | cons j rest ih =>
    have hj : j ∉ rest := (List.nodup_cons.mp hnd).1
    have hnd2 : rest.Nodup := (List.nodup_cons.mp hnd).2
    rw [runJobs]
    by_cases hsk : skip j = true
    · rw [if_pos hsk, ih hnd2 out]
      by_cases hmem : i ∈ rest ∧ skip i = false
      · rw [if_pos hmem, if_pos ⟨List.mem_cons_of_mem _ hmem.1, hmem.2⟩]
      · rw [if_neg hmem]
        have hneg : ¬ (i ∈ j :: rest ∧ skip i = false) := by
          rintro ⟨hmem2, hski⟩
          rcases List.mem_cons.mp hmem2 with h | h
          · subst h
            rw [hsk] at hski
            cases hski
          · exact hmem ⟨h, hski⟩
        rw [if_neg hneg]
    · rw [if_neg hsk, ih hnd2 (out.set j (enrichSlot fetch arts j))]
      have hskf : skip j = false := by
        cases h : skip j
        · rfl
        · exact absurd h hsk
      by_cases hij : i = j
      · subst hij
        rw [if_neg (fun h => hj h.1)]
        rw [if_pos ⟨List.mem_cons_self _ _, hskf⟩]
        exact List.getElem?_set_self' ..
      · have hset : (out.set j (enrichSlot fetch arts j))[i]? = out[i]? :=
          List.getElem?_set_ne (fun h => hij h.symm)
        rw [hset]
        by_cases hmem : i ∈ rest ∧ skip i = false
        · rw [if_pos hmem, if_pos ⟨List.mem_cons_of_mem _ hmem.1, hmem.2⟩]
        · rw [if_neg hmem]
          have hneg : ¬ (i ∈ j :: rest ∧ skip i = false) := by
            rintro ⟨hmem2, hski⟩
            rcases List.mem_cons.mp hmem2 with h | h
            · exact hij h
            · exact hmem ⟨h, hski⟩
          rw [if_neg hneg]

theorem enrich_getElem?_untouched (fetch : Nat → FetchResult) (cancelAt : Option Nat)
    (skip : Nat → Bool) (arts : List Article) (i : Nat)
    (h : ¬ (i ∈ List.range (dispatchCount cancelAt arts.length) ∧
        (cancelAt.isSome && skip i) = false)) :
    (enrich fetch cancelAt skip arts)[i]? = arts[i]? := by
  rw [enrich, runJobs_getElem? _ _ _ _ (List.nodup_range _) _ i, if_neg h]

/-- Claim C6.  For every batch, every page-fetch oracle, every point at
which the dispatch loop observes cancellation and every choice of worker
cancellation skips, the enrichment output has exactly the length of the
input; every slot whose job was never dispatched (cancellation observed
first) holds the original article; every slot whose worker observed
cancellation after claiming the job holds the original article; and every
dispatched, non-skipped slot holds the original article when its
fetch/parse/status step failed, and the fully enriched article when it
succeeded, so no slot is ever half-overlaid and the batch never shrinks. -/
theorem claim_C6 (fetch : Nat → FetchResult) (cancelAt : Option Nat) (skip : Nat → Bool)
    (arts : List Article) :
    (enrich fetch cancelAt skip arts).length = arts.length ∧
      (∀ i, dispatchCount cancelAt arts.length ≤ i →
        (enrich fetch cancelAt skip arts)[i]? = arts[i]?) ∧
      (∀ i, cancelAt.isSome = true → skip i = true →
        (enrich fetch cancelAt skip arts)[i]? = arts[i]?) ∧
      (∀ i, i < dispatchCount cancelAt arts.length →
        (cancelAt.isSome = true → skip i = false) →
        (∀ e, fetchAndParse (fetch i) (arts.getD i defaultArticle) = .error e →
          (enrich fetch cancelAt skip arts)[i]? = arts[i]?) ∧
        (∀ a, fetchAndParse (fetch i) (arts.getD i defaultArticle) = .ok a →
          (enrich fetch cancelAt skip arts)[i]? = some a)) := by
  refine ⟨runJobs_length .., ?_, ?_, ?_⟩
  · intro i hi
    refine enrich_getElem?_untouched fetch cancelAt skip arts i ?_
    rintro ⟨hmem, _⟩
    exact absurd (List.mem_range.mp hmem) (by omega)
  · intro i hsome hskip
    refine enrich_getElem?_untouched fetch cancelAt skip arts i ?_
    rintro ⟨_, heff⟩
    rw [hsome, hskip] at heff
    cases heff
  · intro i hi heff0
    have heff : (cancelAt.isSome && skip i) = false := by
      cases hc : cancelAt.isSome
      · rfl
      · rw [heff0 hc]
        rfl
    have hin : i < arts.length := by
      rcases cancelAt with _ | k <;> simp [dispatchCount] at hi <;> omega
    have hset : (enrich fetch cancelAt skip arts)[i]?
        = arts[i]?.map (fun _ => enrichSlot fetch arts i) := by
      rw [enrich, runJobs_getElem? _ _ _ _ (List.nodup_range _) _ i,
        if_pos ⟨List.mem_range.mpr hi, heff⟩]
    have hgete : arts[i]? = some (arts.getD i defaultArticle) := by
      rw [List.getElem?_eq_getElem hin, List.getD_eq_getElem arts defaultArticle hin]
    constructor
    · intro e he
      rw [hset, hgete]
      simp only [Option.map_some']
      rw [enrichSlot]
      simp only [he]
    · intro a ha
      rw [hset, hgete]
      simp only [Option.map_some']
      rw [enrichSlot]
      simp only [ha]

/-- Witness for claim C6: cancellation observed after one of two jobs was
dispatched; the undispatched slot keeps its original, and the dispatched
slot whose fetch failed keeps its original too. -/
theorem claim_C6_witness :
    (enrich (fun _ => .fetchErr "boom") (some 1) (fun _ => false) [sampleA1, sampleA2])[1]?
        = [sampleA1, sampleA2][1]? ∧
      (enrich (fun _ => .fetchErr "boom") (some 1) (fun _ => false) [sampleA1, sampleA2])[0]?
        = [sampleA1, sampleA2][0]? :=
  ⟨(claim_C6 (fun _ => .fetchErr "boom") (some 1) (fun _ => false) [sampleA1, sampleA2]).2.1 1
      (by decide),
    ((claim_C6 (fun _ => .fetchErr "boom") (some 1) (fun _ => false) [sampleA1, sampleA2]).2.2.2 0
        (by decide) (fun _ => rfl)).1 "http fetch: boom" rfl⟩

/-! ## Theorems: metadata extraction -/

theorem dropWhile_eq_self_of_prefix {α : Type} {p : α → Bool} {d l : List α}
    (hpre : d <+: l) (hl : l.dropWhile p = l) : d.dropWhile p = d := by
  cases d with
  | nil => rfl
  | cons c d2 =>
    obtain ⟨t, ht⟩ := hpre
    rw [← ht, List.cons_append, List.dropWhile_cons] at hl
    cases hc : p c with
    | true =>
      rw [if_pos hc] at hl
      have hlen := congrArg List.length hl
      have hle := (List.dropWhile_suffix (l := d2 ++ t) p).sublist.length_le
      simp [List.length_append] at hlen hle
      omega
    | false =>
      rw [List.dropWhile_cons, if_neg (by simp [hc])]

theorem dropWhile_trimChars_eq_self (cs : List Char) :
    (trimChars cs).dropWhile isSpaceChar = trimChars cs := by
  refine dropWhile_eq_self_of_prefix ?_ (List.dropWhile_idempotent isSpaceChar cs)
  rw [trimChars]
  exact List.rdropWhile_prefix isSpaceChar (cs.dropWhile isSpaceChar)

theorem trimChars_idem (cs : List Char) : trimChars (trimChars cs) = trimChars cs := by
  rw [trimChars, dropWhile_trimChars_eq_self]
  rw [trimChars, List.rdropWhile_idempotent]

theorem trimS_idem (s : String) : trimS (trimS s) = trimS s := by
  rw [trimS, trimS, trimChars_idem]

theorem trimS_extractContent (o : Option String) :
    trimS (extractContent o) = extractContent o := by
  cases o with
  | none => rfl
  | some v => exact trimS_idem v

theorem firstNonEmpty_pair (a b : String) (ha : trimS a = a) (hb : trimS b = b) :
    firstNonEmpty [a, b] = if a ≠ "" then a else b := by
  rw [firstNonEmpty, ha]
  by_cases h : a ≠ ""
  · rw [if_pos h, if_pos h]
  · rw [if_neg h, if_neg h, firstNonEmpty, hb]
    by_cases h2 : b ≠ ""
    · rw [if_pos h2]
    · rw [if_neg h2, firstNonEmpty]
      push_neg at h2
      rw [h2]

theorem parseMeta_title (doc : PageDoc) :
    (parseMeta doc).title
      = if extractContent doc.ogTitle ≠ "" then extractContent doc.ogTitle
        else trimS doc.titleText := by
  rw [parseMeta]
  exact firstNonEmpty_pair _ _ (trimS_extractContent doc.ogTitle) (trimS_idem doc.titleText)

theorem parseMeta_description (doc : PageDoc) :
    (parseMeta doc).description
      = if extractContent doc.ogDescription ≠ "" then extractContent doc.ogDescription
        else extractContent doc.metaDescription := by
  rw [parseMeta]
  exact firstNonEmpty_pair _ _ (trimS_extractContent doc.ogDescription)
    (trimS_extractContent doc.metaDescription)

theorem overlay_if (x y z : String) :
    (if (if x ≠ "" then x else y) ≠ "" then (if x ≠ "" then x else y) else z)
      = if x ≠ "" then x else if y ≠ "" then y else z := by
  by_cases hx : x ≠ ""
  · rw [if_pos hx, if_pos hx, if_pos hx]
  · rw [if_neg hx, if_neg hx]

/-- Claim C9.  On a successfully fetched page with status 200 that parses,
the enriched article has: title equal to the (trimmed) Open Graph title when
that is present and nonempty, else the trimmed text of the title element
when nonempty, else the original title; description equal to the Open Graph
description when nonempty, else the description meta tag when nonempty, else
the original description; image equal to the Open Graph image resolved
against the URL of the article itself when nonempty, else the original
image.  Resolution returns an absolute image URL unchanged and resolves a
relative one against the article URL. -/
theorem claim_C9 (doc : PageDoc) (art : Article) :
    fetchAndParse (.response 200 (.ok doc)) art
        = .ok { art with
            title :=
              if extractContent doc.ogTitle ≠ "" then extractContent doc.ogTitle
              else if trimS doc.titleText ≠ "" then trimS doc.titleText
              else art.title
            description :=
              if extractContent doc.ogDescription ≠ "" then extractContent doc.ogDescription
              else if extractContent doc.metaDescription ≠ ""
                then extractContent doc.metaDescription
              else art.description
            imageURL :=
              if extractContent doc.ogImage ≠ ""
              then resolveURL (extractContent doc.ogImage) art.url
              else art.imageURL } ∧
      (∀ raw base : String, raw ≠ "" → hasScheme raw = true → resolveURL raw base = raw) ∧
      (∀ raw base : String, raw ≠ "" → hasScheme raw = false →
        resolveURL raw base = resolveRef base raw) := by
  refine ⟨?_, ?_, ?_⟩
  · have h1 : fetchAndParse (.response 200 (.ok doc)) art = .ok { art with
        title := if (parseMeta doc).title ≠ "" then (parseMeta doc).title else art.title
        description :=
          if (parseMeta doc).description ≠ "" then (parseMeta doc).description
          else art.description
        imageURL :=
          if (parseMeta doc).imageURL ≠ ""
          then resolveURL (parseMeta doc).imageURL art.url
          else art.imageURL } := by
      rw [fetchAndParse]
      norm_num
    rw [h1, parseMeta_title, parseMeta_description]
    have himg : (parseMeta doc).imageURL = extractContent doc.ogImage := rfl
    rw [himg, overlay_if, overlay_if]
  · intro raw base hne habs
    rw [resolveURL, if_neg hne, if_pos habs]
  · intro raw base hne habs
    rw [resolveURL, if_neg hne, if_neg (by simp [habs])]

/-- Witness for claim C9: an absolute image URL is kept as is and a relative
one is resolved against the base. -/
theorem claim_C9_witness :
    resolveURL "https://x/y" "https://base/" = "https://x/y" ∧
      resolveURL "img/a.png" "https://base/p/q" = resolveRef "https://base/p/q" "img/a.png" :=
  ⟨(claim_C9 samplePage defaultArticle).2.1 "https://x/y" "https://base/"
      (by decide) (by decide),
    (claim_C9 samplePage defaultArticle).2.2 "img/a.png" "https://base/p/q"
      (by decide) (by decide)⟩

end TajaKhobor
